import Mathlib

/-
  Shallow embedding of the core of the verb documentation generator
  (index.js: `verb.process`, `verb.expand`) and the path utility.

  JavaScript objects are modelled as association lists of string keys to
  `JVal` values, with `_.extend` as list append and lookup taking the
  last binding (later sources override earlier ones, as lodash assign
  does).  External collaborators (config-file loading, front-matter
  extraction, the template engine, globule, the filesystem) are supplied
  as explicit environment records, so the orchestration logic that lives
  in index.js is the only thing fixed by the definitions.
-/

namespace Verb

/-- JavaScript runtime values, as far as the verb pipeline inspects them:
`undefined`, strings, numbers, booleans and plain objects. -/
inductive JVal where
  | vUndefined : JVal
  | vStr : String → JVal
  | vNum : Int → JVal
  | vBool : Bool → JVal
  | vObj : List (String × JVal) → JVal

/-- A JavaScript object: an association list of own properties.  Later
entries shadow earlier ones. -/
abbrev Obj := List (String × JVal)

/-- Property read `o[k]`: the last binding of `k` wins, `none` when the
key is absent (JavaScript member-access semantics). -/
def getOpt : Obj → String → Option JVal
  | [], _ => none
  | (k', v) :: rest, k => (getOpt rest k).orElse (fun _ => if k' == k then some v else none)

/-- Property read returning `undefined` for a missing key. -/
def get (o : Obj) (k : String) : JVal := (getOpt o k).getD .vUndefined

/-- The `k in o` test: does the object own the key at all. -/
def hasKey (o : Obj) (k : String) : Bool := (getOpt o k).isSome

/-- `_.extend(t, s)`: every own key of `s` is assigned onto `t`,
overwriting on collision.  With last-wins lookup this is append. -/
def extend (t s : Obj) : Obj := t ++ s

/-- The `delete o[k]` statement: the key is removed from the object. -/
def deleteKey (o : Obj) (k : String) : Obj := o.filter (fun p => !(p.1 == k))

/-- JavaScript truthiness for the values the pipeline branches on. -/
def truthy : JVal → Bool
  | .vUndefined => false
  | .vStr s => !(s == "")
  | .vNum n => !(n == 0)
  | .vBool b => b
  | .vObj _ => true

/-- The JavaScript `a || b` expression on values. -/
def jsOr (a b : JVal) : JVal := if truthy a then a else b

/-- Coerce a value to an object for `_.extend`: non-objects contribute no
keys (lodash ignores primitive sources; `x || \x7b\x7d` yields the empty
object on falsy values). -/
def toObj : JVal → Obj
  | .vObj l => l
  | _ => []

/-- JavaScript `String(v)` for the values that can reach a join. -/
def jsToString : JVal → String
  | .vUndefined => "undefined"
  | .vStr s => s
  | .vNum n => toString n
  | .vBool b => if b then "true" else "false"
  | .vObj _ => "[object Object]"

/-- `Array.prototype.join(sep)`: an `undefined` separator falls back to
the language default `","`; anything else is stringified. -/
def joinSep : JVal → String
  | .vUndefined => ","
  | v => jsToString v

theorem orElse_some_left (a : JVal) (f : Unit → Option JVal) :
    (Option.orElse (some a) f) = some a := rfl

theorem orElse_none_left (f : Unit → Option JVal) :
    (Option.orElse none f) = f () := rfl

theorem orElse_none_right (x : Option JVal) :
    (Option.orElse x fun _ => none) = x := by
  cases x <;> rfl

theorem orElse_if_false (x : Option JVal) (v : JVal) (c : Bool) (hc : c = false) :
    (Option.orElse x fun _ => if c = true then some v else none) = x := by
  subst hc
  cases x <;> rfl

theorem getOpt_append (t s : Obj) (k : String) :
    getOpt (t ++ s) k = Option.orElse (getOpt s k) (fun _ => getOpt t k) := by
  induction t with
  | nil =>
    rw [List.nil_append]
    cases h : getOpt s k
    · rw [orElse_none_left]; rfl
    · rw [orElse_some_left]
  | cons p t ih =>
    obtain ⟨k', v⟩ := p
    rw [List.cons_append]
    show Option.orElse (getOpt (t ++ s) k) _ = _
    rw [ih]
    cases h : getOpt s k
    · simp only [orElse_none_left]; rfl
    · simp only [orElse_some_left]

theorem hasKey_false_iff (o : Obj) (k : String) :
    hasKey o k = false ↔ getOpt o k = none := by
  unfold hasKey
  cases getOpt o k <;> simp

theorem get_extend_of_hasKey (t s : Obj) (k : String) (h : hasKey s k = true) :
    get (extend t s) k = get s k := by
  unfold get extend
  rw [getOpt_append]
  unfold hasKey at h
  cases hs : getOpt s k with
  | none => rw [hs] at h; cases h
  | some v => rw [orElse_some_left]

theorem get_extend_of_not_hasKey (t s : Obj) (k : String) (h : hasKey s k = false) :
    get (extend t s) k = get t k := by
  unfold get extend
  rw [getOpt_append, (hasKey_false_iff s k).mp h, orElse_none_left]

theorem getOpt_filter_keep (o : Obj) (q : String → Bool) (k : String) (h : q k = true) :
    getOpt (o.filter (fun p => q p.1)) k = getOpt o k := by
  induction o with
  | nil => rfl
  | cons p o ih =>
    obtain ⟨k', v⟩ := p
    cases hk : (k' == k) with
    | true =>
      have hkk : k' = k := by simpa using hk
      simp only [List.filter_cons, hkk, h, if_true]
      unfold getOpt
      rw [ih]
    | false =>
      cases hq : q k' with
      | false =>
        simp only [List.filter_cons, hq, Bool.false_eq_true, if_false]
        rw [ih]
        show _ = Option.orElse (getOpt o k) _
        rw [orElse_if_false (getOpt o k) v (k' == k) hk]
      | true =>
        simp only [List.filter_cons, hq, if_true]
        unfold getOpt
        rw [ih]

theorem getOpt_filter_drop (o : Obj) (q : String → Bool) (k : String) (h : q k = false) :
    getOpt (o.filter (fun p => q p.1)) k = none := by
  induction o with
  | nil => rfl
  | cons p o ih =>
    obtain ⟨k', v⟩ := p
    cases hk : (k' == k) with
    | true =>
      have hkk : k' = k := by simpa using hk
      simp only [List.filter_cons, hkk, h, Bool.false_eq_true, if_false]
      exact ih
    | false =>
      cases hq : q k' with
      | false =>
        simp only [List.filter_cons, hq, Bool.false_eq_true, if_false]
        exact ih
      | true =>
        simp only [List.filter_cons, hq, if_true]
        show Option.orElse (getOpt (o.filter fun p => q p.1) k) _ = none
        rw [ih, orElse_none_left]
        simp [hk]

/-- The static runner identity from index.js: `verb.runner`. -/
def runner : Obj :=
  [("name", .vStr "Verb"), ("url", .vStr "https://github.com/assemble/verb")]

/-- `verb.ext = '.md'` from index.js. -/
def verbExt : String := ".md"

/-- External collaborators of `verb.process`.  Each field stands for a
module required by index.js but outside the orchestrator itself:
`loadConfig` is `configFile.load(cwd(opts.verbrc))` as a function of the
`verbrc` value, `verbrcDefault` is the module-level `verb.verbrc`,
`configInit` is `require('./lib/config').init(opts.config)` (returning
`none` for a null/undefined result, which `|| \x7b\x7d` replaces with the
empty object), `dataInit` is `lib/data.init` (index.js calls it twice
with the same `opts`), `tagsInit`/`filtersInit`/`pluginsInit` are the
objects the respective `init(verb)` calls return, `matterCtx` and
`matterContent` are the two halves of the Page that `verb.matter(src,
opts)` extracts, `excludeKeys` is the configured key set of the
exclusion filter, `template` is the Lo-Dash renderer, `postProcess` and
`tocInsert` are the post-processing collaborators, and
`resolveFires`/`resolveResult` describe the Tag Resolver: on which
scheduler yield (if any) its callback fires, and with what content. -/
structure PEnv where
  loadConfig : JVal → Obj
  verbrcDefault : Obj
  configInit : JVal → Option Obj
  dataInit : Obj → Obj
  tagsInit : Obj
  filtersInit : Obj
  matterCtx : String → Obj → Obj
  matterContent : String → Obj → String
  excludeKeys : Obj → List String
  pluginsInit : Obj
  template : String → Obj → Obj → String
  postProcess : String → Obj → String
  tocInsert : String → JVal → String
  resolveFires : String → Option Nat
  resolveResult : String → String

/-- Modelled from the spec: `lib/exclusions` is not under src/.  §4.2
step 8 says the exclusion filter "removes a configured set of keys from
context before final use"; we model the configured set as the
collaborator-supplied `keys` list and remove exactly those keys. -/
def exclusions (keys : List String) (ctx : Obj) : Obj :=
  ctx.filter (fun p => !(keys.contains p.1))

/-- Lines 110-123 of index.js: merge the caller's options over the
default `toc` object, then merge the runtime config (loaded from
`opts.verbrc` when that option is truthy, else the module-level
`verb.verbrc`) over the options. -/
def processOpts (env : PEnv) (options : Obj) : Obj :=
  let opts := extend [("toc", .vObj [("maxDepth", .vNum 2)])] options
  let runtimeConfig :=
    if truthy (get opts "verbrc") then env.loadConfig (get opts "verbrc")
    else env.verbrcDefault
  extend opts runtimeConfig

/-- Lines 127-158 of index.js: the context build of `verb.process`.
The base is the project config with its transient `config` key deleted;
then the options, `opts.metadata`, the first `lib/data.init(opts)` call,
the tag and filter initializers, the second `lib/data.init(opts)` call
(`verb.data.init` is the same module), and the front-matter context are
merged over it in order; the exclusion filter is applied; the runner
identity is merged; finally the plugin initializer result is merged. -/
def processContext (env : PEnv) (src : String) (options : Obj) : Obj :=
  let opts := processOpts env options
  let ctx0 := deleteKey ((env.configInit (get opts "config")).getD []) "config"
  let ctx1 := extend ctx0 opts
  let ctx2 := extend ctx1 (toObj (get opts "metadata"))
  let ctx3 := extend ctx2 (env.dataInit opts)
  let ctx4 := extend ctx3 env.tagsInit
  let ctx5 := extend ctx4 env.filtersInit
  let ctx6 := extend ctx5 (env.dataInit opts)
  let ctx7 := extend ctx6 (env.matterCtx src opts)
  let ctx8 := exclusions (env.excludeKeys opts) ctx7
  let ctx9 := extend ctx8 [("runner", .vObj runner)]
  extend ctx9 env.pluginsInit

/-- Line 162 of index.js: the synchronous render
`verb.template(verb.page.content, verb.context, settings)` with
`settings = opts.settings || \x7b\x7d`. -/
def renderedString (env : PEnv) (src : String) (options : Obj) : String :=
  let opts := processOpts env options
  env.template (env.matterContent src opts) (processContext env src options)
    (toObj (get opts "settings"))

/-- The record `verb.process` returns (the `verb` module handle is
process-wide state and is not part of the functional result). -/
structure PResult where
  context : Obj
  content : String
  original : String

/-- Lines 164-182 of index.js, after the spin-wait has finished: the
callback's `results` replace `rendered`, then `postProcess` and
`toc.insert(result, opts.toc)` run, and the result record is built. -/
def processResultRecord (env : PEnv) (src : String) (options : Obj) : PResult :=
  let opts := processOpts env options
  let resolved := env.resolveResult (renderedString env src options)
  { context := processContext env src options
    content := env.tocInsert (env.postProcess resolved opts) (get opts "toc")
    original := src }

/-- State of the `renderDone` flag after `k` iterations of the busy-wait
loop (lines 169-171).  Each `process.nextTick()` iteration yields to the
scheduler once; the flag is set as soon as the Tag Resolver callback has
fired, i.e. when its firing index is at most `k`. -/
def renderDoneAfter (env : PEnv) (r : String) (k : Nat) : Bool :=
  match env.resolveFires r with
  | some n => decide (n ≤ k)
  | none => false

/-- `verb.process src options` terminates and returns `res`: the
busy-wait loop observes `renderDone` after some finite number of yields,
and the returned record is `processResultRecord`. -/
def processRel (env : PEnv) (src : String) (options : Obj) (res : PResult) : Prop :=
  (∃ k, renderDoneAfter env (renderedString env src options) k = true) ∧
    res = processResultRecord env src options

/-- One src-dest pair produced by `file.expandMapping` (globule): a list
of matched source paths and the destination they map to. -/
structure Mapping where
  src : List String
  dest : String

/-- External collaborators of `verb.expand`: `expandMapping` is
globule's `file.expandMapping(src, defaults)`, `fexists` is
`file.exists`, `render` is the content `verb.read(filepath, opts)`
produces for a source path (file read plus `verb.process`), `hasExt` is
`file.hasExt`, and `cwdDot` is `verb.cwd('.')`. -/
structure ExpandEnv where
  expandMapping : String → Obj → List Mapping
  fexists : String → Bool
  render : String → Obj → String
  hasExt : String → Bool
  cwdDot : String

/-- Line 265 of index.js: `var opts = _.extend(\x7bconcat: false\x7d, options)`. -/
def defaultExpandOpts (options : Obj) : Obj :=
  extend [("concat", .vBool false)] options

/-- Lines 275-287 of index.js: the defaults record handed to globule.
`sep` is `opts.sep || '\n'`, `cwd` is `opts.cwd || verb.cwd('.')`,
`ext` is `verb.ext || opts.ext` (as written in the source: the
module-level `verb.ext` is the first operand), `destBase` is `dest`,
`srcBase` is `defaults.cwd`; finally the user's `glob` options are
extended over the record (`opts.glob = opts.glob || \x7b\x7d`). -/
def expandDefaults (env : ExpandEnv) (dest : String) (opts : Obj) : Obj :=
  let cwdV := jsOr (get opts "cwd") (.vStr env.cwdDot)
  extend
    [("sep", jsOr (get opts "sep") (.vStr "\n")),
     ("cwd", cwdV),
     ("ext", jsOr (.vStr verbExt) (get opts "ext")),
     ("destBase", .vStr dest),
     ("srcBase", cwdV)]
    (toObj (get opts "glob"))

/-- Line 283 of index.js: `var concat = opts.concat || file.hasExt(dest) || false`. -/
def concatVal (env : ExpandEnv) (dest : String) (opts : Obj) : JVal :=
  jsOr (jsOr (get opts "concat") (.vBool (env.hasExt dest))) (.vBool false)

/-- Truthiness of the `concat` value, as used by `if(!concat)` / `if(concat)`. -/
def concatMode (env : ExpandEnv) (dest : String) (options : Obj) : Bool :=
  truthy (concatVal env dest (defaultExpandOpts options))

/-- The logged message of line 296 of index.js. -/
def srcNotFoundMsg (filepath : String) : String :=
  ">> Source file \x22" ++ filepath ++ "\x22 not found."

/-- Lines 293-312 of index.js: the per-mapping pass.  For each mapping,
the matched sources are filtered by existence (a missing one logs an
error and is dropped); each surviving source is either written through
`verb.read` to the mapping's `dest` (concat off) or deferred (concat
on).  Returns the writes performed, the errors logged, and the deferred
source paths, each in encounter order. -/
def expandLoop (env : ExpandEnv) (concat : Bool) (opts : Obj) :
    List Mapping → List (String × String) × List String × List String
  | [] => ([], [], [])
  | fp :: rest =>
    let existing := fp.src.filter (fun p => env.fexists p)
    let errs := (fp.src.filter (fun p => !env.fexists p)).map srcNotFoundMsg
    let tail := expandLoop env concat opts rest
    if concat then
      (tail.1, errs ++ tail.2.1, existing ++ tail.2.2)
    else
      (existing.map (fun p => (fp.dest, env.render p opts)) ++ tail.1,
        errs ++ tail.2.1, tail.2.2)

/-- Observable effects of one `verb.expand` call: the file writes
(`file.writeFileSync(dest, content)`) in order, and the logged
source-not-found errors in order. -/
structure ExpandOut where
  writes : List (String × String)
  errors : List String

/-- Lines 264-332 of index.js: `verb.expand(src, dest, options)`.
After the per-mapping pass, concat mode maps `verb.read` over the
deferred paths (`_.flatten(defer)` is the identity here, `defer` being
already flat), joins with `opts.sep` (the raw option, so JavaScript's
`Array.prototype.join` default applies when it is undefined) and writes
the blob once to `dest`. -/
def expand (env : ExpandEnv) (src dest : String) (options : Obj) : ExpandOut :=
  let opts := defaultExpandOpts options
  let defaults := expandDefaults env dest opts
  let concat := concatMode env dest options
  let out := expandLoop env concat opts (env.expandMapping src defaults)
  if concat then
    let blob := String.intercalate (joinSep (get opts "sep"))
      (out.2.2.map (fun p => env.render p opts))
    { writes := out.1 ++ [(dest, blob)], errors := out.2.1 }
  else
    { writes := out.1, errors := out.2.1 }

theorem truthy_vBool (b : Bool) : truthy (.vBool b) = b := rfl

theorem truthy_jsOr (a b : JVal) : truthy (jsOr a b) = (truthy a || truthy b) := by
  unfold jsOr
  cases h : truthy a <;> simp [h]

theorem orElse_eq_left (x : Option JVal) (f : Unit → Option JVal) (h : f () = none) :
    Option.orElse x f = x := by
  cases x
  · rw [orElse_none_left, h]
  · rw [orElse_some_left]

theorem getOpt_defaultExpandOpts (options : Obj) (k : String) (h : ("concat" == k) = false) :
    getOpt (defaultExpandOpts options) k = getOpt options k := by
  unfold defaultExpandOpts extend
  rw [getOpt_append]
  refine orElse_eq_left _ _ ?_
  show Option.orElse none _ = none
  rw [orElse_none_left]
  simp [h]

theorem get_defaultExpandOpts_concat (options : Obj) :
    get (defaultExpandOpts options) "concat" = (getOpt options "concat").getD (.vBool false) := by
  unfold defaultExpandOpts extend get
  rw [getOpt_append]
  cases h : getOpt options "concat"
  · rw [orElse_none_left]; rfl
  · rw [orElse_some_left]; rfl

theorem expandLoop_concat_spec (env : ExpandEnv) (opts : Obj) (ms : List Mapping) :
    (expandLoop env true opts ms).1 = [] ∧
      (expandLoop env true opts ms).2.1
        = ms.flatMap (fun fp => (fp.src.filter (fun p => !env.fexists p)).map srcNotFoundMsg) ∧
      (expandLoop env true opts ms).2.2
        = ms.flatMap (fun fp => fp.src.filter (fun p => env.fexists p)) := by
  induction ms with
  | nil => exact ⟨rfl, rfl, rfl⟩
  | cons fp rest ih =>
    refine ⟨?_, ?_, ?_⟩ <;>
      simp only [expandLoop, if_true, List.flatMap_cons, ih.1, ih.2.1, ih.2.2]

theorem expandLoop_noconcat_spec (env : ExpandEnv) (opts : Obj) (ms : List Mapping) :
    (expandLoop env false opts ms).1
        = ms.flatMap (fun fp => (fp.src.filter (fun p => env.fexists p)).map
            (fun p => (fp.dest, env.render p opts))) ∧
      (expandLoop env false opts ms).2.1
        = ms.flatMap (fun fp => (fp.src.filter (fun p => !env.fexists p)).map srcNotFoundMsg) ∧
      (expandLoop env false opts ms).2.2 = [] := by
  induction ms with
  | nil => exact ⟨rfl, rfl, rfl⟩
  | cons fp rest ih =>
    refine ⟨?_, ?_, ?_⟩ <;>
      simp only [expandLoop, Bool.false_eq_true, if_false, List.flatMap_cons,
        ih.1, ih.2.1, ih.2.2, List.append_nil]

theorem getOpt_exclusions_of_not_mem (keys : List String) (ctx : Obj) (k : String)
    (h : keys.contains k = false) :
    getOpt (exclusions keys ctx) k = getOpt ctx k :=
  getOpt_filter_keep ctx (fun s => !(keys.contains s)) k
    (by show (!(keys.contains k)) = true; rw [h]; rfl)

theorem get_exclusions_of_not_mem (keys : List String) (ctx : Obj) (k : String)
    (h : keys.contains k = false) :
    get (exclusions keys ctx) k = get ctx k := by
  unfold get
  rw [getOpt_exclusions_of_not_mem keys ctx k h]

theorem getOpt_deleteKey_self (o : Obj) (k : String) :
    getOpt (deleteKey o k) k = none :=
  getOpt_filter_drop o (fun s => !(s == k)) k (by simp)

theorem hasKey_singleton_of_ne (a : String) (v : JVal) (k : String) (h : (a == k) = false) :
    hasKey [(a, v)] k = false := by
  unfold hasKey
  show (Option.orElse (getOpt [] k) _).isSome = false
  rw [show getOpt [] k = none from rfl, orElse_none_left]
  simp [h]

theorem get_extend_singleton_self (t : Obj) (a : String) (v : JVal) :
    get (extend t [(a, v)]) a = v := by
  refine (get_extend_of_hasKey t [(a, v)] a ?_).trans ?_
  · unfold hasKey
    show (Option.orElse (getOpt [] a) _).isSome = true
    rw [show getOpt [] a = none from rfl, orElse_none_left]
    simp
  · unfold get
    show (Option.orElse (getOpt [] a) _).getD _ = v
    rw [show getOpt [] a = none from rfl, orElse_none_left]
    simp

theorem orElse_eq_none_iff (x : Option JVal) (f : Unit → Option JVal) :
    Option.orElse x f = none ↔ x = none ∧ f () = none := by
  cases x
  · rw [orElse_none_left]; simp
  · rw [orElse_some_left]; simp

theorem getOpt_filter_none (o : Obj) (f : String × JVal → Bool) (k : String)
    (h : getOpt o k = none) : getOpt (o.filter f) k = none := by
  induction o with
  | nil => rfl
  | cons p o ih =>
    obtain ⟨k', v⟩ := p
    have hp : Option.orElse (getOpt o k) (fun _ => if (k' == k) = true then some v else none)
        = none := h
    rw [orElse_eq_none_iff] at hp
    rw [List.filter_cons]
    cases hf : f (k', v)
    · simpa using ih hp.1
    · simp only [if_true]
      show Option.orElse (getOpt (o.filter f) k) _ = none
      rw [orElse_eq_none_iff]
      exact ⟨ih hp.1, hp.2⟩

theorem hasKey_extend_false (t s : Obj) (k : String)
    (ht : hasKey t k = false) (hs : hasKey s k = false) :
    hasKey (extend t s) k = false := by
  rw [hasKey_false_iff] at ht hs ⊢
  unfold extend
  rw [getOpt_append, hs, orElse_none_left, ht]

/-- C1: in the Context produced by `process`, later merge steps override
earlier ones.  For a key that the other merge sources leave alone (not
excluded, not the reserved `runner` key, not set by the plugin
initializer): if front matter does not set it but the caller's
`metadata` does, the final Context holds the `metadata` value, whatever
the package/project config set it to; and if front matter sets it, the
final Context holds the front-matter value, overriding both the config
base and `metadata`. -/
theorem process_merge_precedence (env : PEnv) (src : String) (options : Obj) (k : String)
    (hx : (env.excludeKeys (processOpts env options)).contains k = false)
    (hr : k ≠ "runner")
    (hp : hasKey env.pluginsInit k = false) :
    (hasKey (env.matterCtx src (processOpts env options)) k = false →
      hasKey (env.dataInit (processOpts env options)) k = false →
      hasKey env.tagsInit k = false →
      hasKey env.filtersInit k = false →
      hasKey (toObj (get (processOpts env options) "metadata")) k = true →
      get (processContext env src options) k
        = get (toObj (get (processOpts env options) "metadata")) k) ∧
    (hasKey (env.matterCtx src (processOpts env options)) k = true →
      get (processContext env src options) k
        = get (env.matterCtx src (processOpts env options)) k) := by
  have hr' : ("runner" == k) = false := beq_eq_false_iff_ne.mpr (Ne.symm hr)
  unfold processContext
  constructor
  · intro hm hd htg hf hmeta
    rw [get_extend_of_not_hasKey _ _ _ hp,
      get_extend_of_not_hasKey _ _ _ (hasKey_singleton_of_ne _ _ _ hr'),
      get_exclusions_of_not_mem _ _ _ hx,
      get_extend_of_not_hasKey _ _ _ hm,
      get_extend_of_not_hasKey _ _ _ hd,
      get_extend_of_not_hasKey _ _ _ hf,
      get_extend_of_not_hasKey _ _ _ htg,
      get_extend_of_not_hasKey _ _ _ hd,
      get_extend_of_hasKey _ _ _ hmeta]
  · intro hm
    rw [get_extend_of_not_hasKey _ _ _ hp,
      get_extend_of_not_hasKey _ _ _ (hasKey_singleton_of_ne _ _ _ hr'),
      get_exclusions_of_not_mem _ _ _ hx,
      get_extend_of_hasKey _ _ _ hm]

/-- A concrete collaborator environment: the project config sets
`title: "A"` and `author: "X"`, front matter sets `author: "FM"`, and
every other collaborator contributes nothing. -/
def envA : PEnv :=
  { loadConfig := fun _ => []
    verbrcDefault := []
    configInit := fun _ => some [("title", .vStr "A"), ("author", .vStr "X")]
    dataInit := fun _ => []
    tagsInit := []
    filtersInit := []
    matterCtx := fun _ _ => [("author", .vStr "FM")]
    matterContent := fun s _ => s
    excludeKeys := fun _ => []
    pluginsInit := []
    template := fun s _ _ => s
    postProcess := fun s _ => s
    tocInsert := fun s _ => s
    resolveFires := fun _ => some 0
    resolveResult := fun s => s }

/-- Caller options carrying `metadata: \x7btitle: "B"\x7d`. -/
def optionsA : Obj := [("metadata", .vObj [("title", .vStr "B")])]

/-- Witness for C1: with config `title:"A"`, `author:"X"`, metadata
`title:"B"` and front matter `author:"FM"`, the final context has
`title = "B"` (metadata beats config) and `author = "FM"` (front matter
beats config). -/
theorem process_merge_precedence_witness :
    get (processContext envA "body" optionsA) "title" = .vStr "B" ∧
    get (processContext envA "body" optionsA) "author" = .vStr "FM" :=
  ⟨((process_merge_precedence envA "body" optionsA "title" rfl (by decide) rfl).1
      rfl rfl rfl rfl rfl).trans rfl,
    ((process_merge_precedence envA "body" optionsA "author" rfl (by decide) rfl).2
      rfl).trans rfl⟩

theorem hasKey_exclusions_false (keys : List String) (ctx : Obj) (k : String)
    (h : hasKey ctx k = false) : hasKey (exclusions keys ctx) k = false := by
  rw [hasKey_false_iff] at h ⊢
  exact getOpt_filter_none ctx _ k h

/-- A minimal collaborator environment: every collaborator contributes
nothing and the exclusion filter's configured key set is empty. -/
def envB : PEnv :=
  { loadConfig := fun _ => []
    verbrcDefault := []
    configInit := fun _ => some []
    dataInit := fun _ => []
    tagsInit := []
    filtersInit := []
    matterCtx := fun _ _ => []
    matterContent := fun s _ => s
    excludeKeys := fun _ => []
    pluginsInit := []
    template := fun s _ _ => s
    postProcess := fun s _ => s
    tocInsert := fun s _ => s
    resolveFires := fun _ => some 0
    resolveResult := fun s => s }

/-- C2 counterexample: when the caller's options themselves carry a
`config` field, the final Context does contain the key `config`.  The
`delete verb.context.config` on line 129 runs before
`_.extend(verb.context, opts)` on line 135, which copies the caller's
`config` entry right back in, and nothing later removes it. -/
theorem process_config_key_leaks :
    hasKey (processContext envB "" [("config", .vStr "site.yml")]) "config" = true := rfl

/-- C2 amended: the `delete` only guards the config-derived base of the
Context.  Whenever none of the later-merged sources (the merged options,
`opts.metadata`, the data/tag/filter initializers, front matter, the
plugin initializer) carries a `config` key of its own, the final Context
does not contain `config`, whatever the project config object held. -/
theorem process_no_config_when_sources_lack_it (env : PEnv) (src : String) (options : Obj)
    (h1 : hasKey (processOpts env options) "config" = false)
    (h2 : hasKey (toObj (get (processOpts env options) "metadata")) "config" = false)
    (h3 : hasKey (env.dataInit (processOpts env options)) "config" = false)
    (h4 : hasKey env.tagsInit "config" = false)
    (h5 : hasKey env.filtersInit "config" = false)
    (h6 : hasKey (env.matterCtx src (processOpts env options)) "config" = false)
    (h7 : hasKey env.pluginsInit "config" = false) :
    hasKey (processContext env src options) "config" = false := by
  unfold processContext
  refine hasKey_extend_false _ _ _ ?_ h7
  refine hasKey_extend_false _ _ _ ?_ (hasKey_singleton_of_ne _ _ _ (by decide))
  apply hasKey_exclusions_false
  refine hasKey_extend_false _ _ _ ?_ h6
  refine hasKey_extend_false _ _ _ ?_ h3
  refine hasKey_extend_false _ _ _ ?_ h5
  refine hasKey_extend_false _ _ _ ?_ h4
  refine hasKey_extend_false _ _ _ ?_ h3
  refine hasKey_extend_false _ _ _ ?_ h2
  refine hasKey_extend_false _ _ _ ?_ h1
  rw [hasKey_false_iff]
  exact getOpt_deleteKey_self _ _

/-- Witness for the amended C2: with options that carry no `config` key
and collaborators that contribute none, the final Context lacks
`config`. -/
theorem process_no_config_when_sources_lack_it_witness :
    hasKey (processContext envB "" [("title", .vStr "t")]) "config" = false :=
  process_no_config_when_sources_lack_it envB "" [("title", .vStr "t")]
    rfl rfl rfl rfl rfl rfl rfl

/-- A collaborator environment whose plugin initializer result carries a
`runner` key of its own. -/
def envC : PEnv := { envB with pluginsInit := [("runner", .vStr "other")] }

/-- C3 counterexample: the runner identity is not the last value merged
in.  Line 158 of index.js merges `verb.plugins.init(verb)` after the
runner merge of line 155, so a plugin-initializer result with a `runner`
key overwrites the static identity: here the final Context's `runner` is
the string `"other"`, not the static record. -/
theorem process_runner_overwritten_by_plugins :
    get (processContext envC "" []) "runner" = .vStr "other" ∧
      JVal.vStr "other" ≠ .vObj runner :=
  ⟨rfl, fun h => by cases h⟩

/-- C3 amended: the runner identity is merged after the exclusion
filter, so none of the §4.2 steps 1-8 can override it; the only step
merged later is the plugin initializer, and whenever its result has no
`runner` key the final Context's `runner` equals the static identity. -/
theorem process_runner_static_unless_plugins (env : PEnv) (src : String) (options : Obj)
    (hp : hasKey env.pluginsInit "runner" = false) :
    get (processContext env src options) "runner" = .vObj runner := by
  unfold processContext
  rw [get_extend_of_not_hasKey _ _ _ hp]
  exact get_extend_singleton_self _ _ _

/-- Witness for the amended C3: with a plugin initializer that sets no
`runner` key, the final Context's `runner` is the static identity. -/
theorem process_runner_static_unless_plugins_witness :
    get (processContext envB "x" []) "runner" = .vObj runner :=
  process_runner_static_unless_plugins envB "x" [] rfl

/-- C8: `process` terminates and returns its result record exactly when
the Tag Resolver invokes its completion callback.  The busy-wait loop's
`renderDone` flag is observed true after some finite number of scheduler
yields iff the callback fires at some yield index; when it never fires,
no number of loop iterations exits the loop and no result is
returned. -/
theorem process_returns_iff_callback (env : PEnv) (src : String) (options : Obj) :
    (∃ res, processRel env src options res) ↔
      (env.resolveFires (renderedString env src options)).isSome := by
  constructor
  · rintro ⟨res, ⟨k, hk⟩, -⟩
    unfold renderDoneAfter at hk
    cases h : env.resolveFires (renderedString env src options) with
    | none => rw [h] at hk; simp at hk
    | some n => rfl
  · intro h
    cases h2 : env.resolveFires (renderedString env src options) with
    | none => rw [h2] at h; simp at h
    | some n =>
      refine ⟨processResultRecord env src options, ⟨n, ?_⟩, rfl⟩
      unfold renderDoneAfter
      rw [h2]
      simp

theorem expand_concat_char (env : ExpandEnv) (src dest : String) (options : Obj)
    (hc : concatMode env dest options = true) :
    (expand env src dest options).writes
      = [(dest, String.intercalate (joinSep (get (defaultExpandOpts options) "sep"))
          (((env.expandMapping src (expandDefaults env dest (defaultExpandOpts options))).flatMap
              (fun fp => fp.src.filter (fun p => env.fexists p))).map
            (fun p => env.render p (defaultExpandOpts options))))]
      ∧ (expand env src dest options).errors
      = (env.expandMapping src (expandDefaults env dest (defaultExpandOpts options))).flatMap
          (fun fp => (fp.src.filter (fun p => !env.fexists p)).map srcNotFoundMsg) := by
  have hloop := expandLoop_concat_spec env (defaultExpandOpts options)
      (env.expandMapping src (expandDefaults env dest (defaultExpandOpts options)))
  unfold expand
  rw [hc]
  simp only [eq_self_iff_true, ite_true]
  rw [hloop.1, hloop.2.1, hloop.2.2, List.nil_append]
  exact ⟨rfl, rfl⟩

/-- C4: in `expand` with concatenation active and a configured string
`sep`, the content written is the single write of the joined rendered
outputs of all existing matched source files, flattened across all
mappings in discovery order, joined with the configured separator and
written exactly once to the single `dest`. -/
theorem expand_concat_single_write (env : ExpandEnv) (src dest : String) (options : Obj)
    (s : String) (hc : concatMode env dest options = true)
    (hs : getOpt options "sep" = some (.vStr s)) :
    (expand env src dest options).writes
      = [(dest, String.intercalate s
          (((env.expandMapping src (expandDefaults env dest (defaultExpandOpts options))).flatMap
              (fun fp => fp.src.filter (fun p => env.fexists p))).map
            (fun p => env.render p (defaultExpandOpts options))))] := by
  have hsep : joinSep (get (defaultExpandOpts options) "sep") = s := by
    unfold get
    rw [getOpt_defaultExpandOpts options "sep" rfl, hs]
    rfl
  rw [(expand_concat_char env src dest options hc).1, hsep]

/-- Globule returns two mappings whose matched sources are `a`, `b`
(mapping one) and `c` (mapping two); `b` does not exist on disk;
rendering a path appends `!`. -/
def envZ : ExpandEnv :=
  { expandMapping := fun _ _ => [⟨["a", "b"], "d1"⟩, ⟨["c"], "d2"⟩]
    fexists := fun p => !(p == "b")
    render := fun p _ => p ++ "!"
    hasExt := fun _ => false
    cwdDot := "." }

/-- Witness for C4: with `concat:true` and `sep:";"`, the existing
sources `a` and `c` render to `a!` and `c!` and the single write to
`out` is their `;`-join. -/
theorem expand_concat_single_write_witness :
    (expand envZ "*.tmpl" "out" [("concat", .vBool true), ("sep", .vStr ";")]).writes
      = [("out", "a!;c!")] :=
  (expand_concat_single_write envZ "*.tmpl" "out"
    [("concat", .vBool true), ("sep", .vStr ";")] ";" rfl rfl).trans rfl

/-- C5: in `expand` with concat off, the writes performed are exactly
one write per existing matched source path, to that path's mapping
`dest`, in discovery order; and the errors logged are exactly one
source-not-found message per missing matched path, which is filtered
out without stopping the remaining files. -/
theorem expand_per_file_writes (env : ExpandEnv) (src dest : String) (options : Obj)
    (hc : concatMode env dest options = false) :
    (expand env src dest options).writes
      = (env.expandMapping src (expandDefaults env dest (defaultExpandOpts options))).flatMap
          (fun fp => (fp.src.filter (fun p => env.fexists p)).map
            (fun p => (fp.dest, env.render p (defaultExpandOpts options))))
      ∧ (expand env src dest options).errors
      = (env.expandMapping src (expandDefaults env dest (defaultExpandOpts options))).flatMap
          (fun fp => (fp.src.filter (fun p => !env.fexists p)).map srcNotFoundMsg) := by
  have hloop := expandLoop_noconcat_spec env (defaultExpandOpts options)
      (env.expandMapping src (expandDefaults env dest (defaultExpandOpts options)))
  unfold expand
  rw [hc]
  simp only [Bool.false_eq_true, ite_false]
  exact ⟨hloop.1, hloop.2.1⟩

/-- Witness for C5: sources `a` and `c` exist and each produces one
write to its mapping's dest; the missing `b` produces one logged error
and no write, and `c` is still processed after it. -/
theorem expand_per_file_writes_witness :
    (expand envZ "*.tmpl" "out" []).writes = [("d1", "a!"), ("d2", "c!")]
      ∧ (expand envZ "*.tmpl" "out" []).errors = [srcNotFoundMsg "b"] :=
  ⟨((expand_per_file_writes envZ "*.tmpl" "out" [] rfl).1).trans rfl,
    ((expand_per_file_writes envZ "*.tmpl" "out" [] rfl).2).trans rfl⟩

/-- C6: `expand` runs in concatenation mode exactly when the `concat`
option is truthy or `file.hasExt(dest)` holds; with `concat` absent or
false and an extension-less `dest`, the mode is per-file.  The default
`\x7bconcat: false\x7d` record and the trailing `|| false` of line 283
change nothing about this truthiness. -/
theorem expand_concat_heuristic (env : ExpandEnv) (dest : String) (options : Obj) :
    concatMode env dest options = (truthy (get options "concat") || env.hasExt dest) := by
  unfold concatMode concatVal
  rw [truthy_jsOr, truthy_jsOr, truthy_vBool, truthy_vBool, Bool.or_false,
    get_defaultExpandOpts_concat]
  unfold get
  cases hg : getOpt options "concat"
  · rfl
  · rfl

/-- A trivial batch environment for evaluating the mapping defaults. -/
def envX : ExpandEnv :=
  { expandMapping := fun _ _ => []
    fexists := fun _ => false
    render := fun _ _ => ""
    hasExt := fun _ => false
    cwdDot := "." }

/-- C7 evaluated at the failing input: the caller supplies
`ext: ".html"`, yet the defaults record handed to globule carries
`ext: ".md"`.  Line 278 of index.js computes `ext: verb.ext || opts.ext`
with the always-truthy module constant `verb.ext = '.md'` first, so the
caller's `ext` option can never win, contradicting the code's own doc
comment ("[ext] extension to use for dest files. Default verb.ext"). -/
theorem expand_ext_option_ignored :
    get (expandDefaults envX "docs" (defaultExpandOpts [("ext", .vStr ".html")])) "ext"
        = .vStr ".md"
      ∧ (".md" : String) ≠ ".html" :=
  ⟨rfl, by decide⟩

/-- C9: in `expand` with concatenation active and no `sep` option, the
rendered outputs are joined with `","`: line 322 joins with the raw
`opts.sep`, which is undefined, so JavaScript's default join separator
applies — while the unused `sep` slot of the mapping-defaults record
was computed as `"\n"`. -/
theorem expand_default_sep_comma (env : ExpandEnv) (src dest : String) (options : Obj)
    (hc : concatMode env dest options = true)
    (hs : hasKey options "sep" = false)
    (hg : hasKey (toObj (get (defaultExpandOpts options) "glob")) "sep" = false) :
    (expand env src dest options).writes
      = [(dest, String.intercalate ","
          (((env.expandMapping src (expandDefaults env dest (defaultExpandOpts options))).flatMap
              (fun fp => fp.src.filter (fun p => env.fexists p))).map
            (fun p => env.render p (defaultExpandOpts options))))]
      ∧ get (expandDefaults env dest (defaultExpandOpts options)) "sep" = .vStr "\n" := by
  have hopt : getOpt (defaultExpandOpts options) "sep" = none := by
    rw [getOpt_defaultExpandOpts options "sep" rfl]
    exact (hasKey_false_iff options "sep").mp hs
  have hund : get (defaultExpandOpts options) "sep" = .vUndefined := by
    unfold get
    rw [hopt]
    rfl
  constructor
  · have hsep : joinSep (get (defaultExpandOpts options) "sep") = "," := by
      rw [hund]
      rfl
    rw [(expand_concat_char env src dest options hc).1, hsep]
  · unfold expandDefaults
    rw [get_extend_of_not_hasKey _ _ _ hg, hund]
    rfl

/-- Witness for C9: with `concat:true` and no `sep` option, the blob is
the `","`-join of the rendered outputs, and the defaults record still
holds `sep: "\n"`. -/
theorem expand_default_sep_comma_witness :
    (expand envZ "*.tmpl" "out" [("concat", .vBool true)]).writes = [("out", "a!,c!")]
      ∧ get (expandDefaults envZ "out" (defaultExpandOpts [("concat", .vBool true)])) "sep"
        = .vStr "\n" :=
  ⟨((expand_default_sep_comma envZ "*.tmpl" "out" [("concat", .vBool true)]
      rfl rfl rfl).1).trans rfl,
    (expand_default_sep_comma envZ "*.tmpl" "out" [("concat", .vBool true)] rfl rfl rfl).2⟩

/-- C10: the caller's `glob` options are extended over the computed
mapping defaults last (line 287), so for every key the `glob` object
owns — including `sep`, `cwd`, `ext`, `srcBase` and `destBase` — the
value handed to globule is the `glob` option's, overriding the value
derived from the other options. -/
theorem expand_glob_overrides_defaults (env : ExpandEnv) (dest : String) (options : Obj)
    (k : String)
    (h : hasKey (toObj (get (defaultExpandOpts options) "glob")) k = true) :
    get (expandDefaults env dest (defaultExpandOpts options)) k
      = get (toObj (get (defaultExpandOpts options) "glob")) k := by
  unfold expandDefaults
  exact get_extend_of_hasKey _ _ _ h

/-- Witness for C10: a `glob` option carrying `ext: ".txt"` and
`sep: "|"` overrides both computed defaults in the record handed to
globule. -/
theorem expand_glob_overrides_defaults_witness :
    get (expandDefaults envZ "out"
        (defaultExpandOpts [("glob", .vObj [("ext", .vStr ".txt"), ("sep", .vStr "|")])])) "ext"
      = .vStr ".txt"
    ∧ get (expandDefaults envZ "out"
        (defaultExpandOpts [("glob", .vObj [("ext", .vStr ".txt"), ("sep", .vStr "|")])])) "sep"
      = .vStr "|" :=
  ⟨(expand_glob_overrides_defaults envZ "out"
      [("glob", .vObj [("ext", .vStr ".txt"), ("sep", .vStr "|")])] "ext" rfl).trans rfl,
    (expand_glob_overrides_defaults envZ "out"
      [("glob", .vObj [("ext", .vStr ".txt"), ("sep", .vStr "|")])] "sep" rfl).trans rfl⟩

end Verb
